import Mathlib

/-!
Shallow embedding of the delegation reward-accounting core of the
distribution keeper (`initializeDelegation`, `calculateDelegationRewardsBetween`,
`CalculateDelegationRewards`, `withdrawDelegationRewards`).

Modelling conventions:
* `sdk.Dec` is a fixed-point decimal with 18 fractional digits; we represent it
  as the scaled integer `x : ℤ` standing for the decimal `x / 10^18`.
  `decUnit = 10^18` is the scale; `sdk.OneDec() = decUnit`,
  `sdk.SmallestDec() = 1`.  `Dec.MulTruncate` is multiplication followed by
  `chopPrecisionAndTruncate`, i.e. division by `decUnit` truncating toward
  zero (`Int.tdiv`).
* `sdk.DecCoins` / `sdk.Coins` over a fixed finite universe of `nd`
  denominations are represented as finitely supported functions
  `Fin nd → ℤ` (the canonical sorted coin list of the sdk is exactly such a
  function: a denomination absent from the list carries amount `0`, and
  `AmountOf` returns `0` for it).
* Panics are modelled as the `Outcome.fatal` constructor, recoverable Go
  `error` returns as `Outcome.err`; both are distinct from `Outcome.ok`.
* The keeper's persistent stores and the external collaborators consulted by
  the engine are gathered into one explicit `State` record for the single
  (validator, delegator) pair under consideration.
-/

/-- Result of a keeper operation: a value, a recoverable Go error returned to
the caller, or a fatal panic that aborts the surrounding transaction. -/
inductive Outcome (α : Type) where
  | ok : α → Outcome α
  | err : String → Outcome α
  | fatal : String → Outcome α
  deriving DecidableEq, Repr

/-- Scale of the fixed-point decimals: 18 fractional digits. -/
def decUnit : ℤ := 10 ^ 18

/-- Decimal coins over `nd` denominations, as scaled amounts per denomination. -/
abbrev DecCoins (nd : ℕ) := Fin nd → ℤ

namespace DecCoins

/-- The empty coin set. -/
def zero (nd : ℕ) : DecCoins nd := fun _ => 0

/-- Pointwise coin addition (`DecCoins.Add`). -/
def add {nd : ℕ} (a b : DecCoins nd) : DecCoins nd := fun d => a d + b d

/-- Pointwise coin subtraction (the amounts of `DecCoins.Sub`; the panic of
`Sub` on a negative component is modelled at each call site). -/
def sub {nd : ℕ} (a b : DecCoins nd) : DecCoins nd := fun d => a d - b d

/-- Per-denomination minimum (`DecCoins.Intersect`). -/
def intersect {nd : ℕ} (a b : DecCoins nd) : DecCoins nd := fun d => min (a d) (b d)

/-- Multiplication of every amount by a decimal, truncating toward zero
(`DecCoins.MulDecTruncate`). -/
def mulDecTruncate {nd : ℕ} (a : DecCoins nd) (x : ℤ) : DecCoins nd :=
  fun d => Int.tdiv (a d * x) decUnit

/-- Conversion of whole-unit coins to decimal coins
(`sdk.NewDecCoinsFromCoins`). -/
def ofCoins {nd : ℕ} (c : DecCoins nd) : DecCoins nd := fun d => c d * decUnit

/-- Whole-unit part of `DecCoins.TruncateDecimal`: each amount truncated
toward zero to whole transferable units. -/
def truncateWhole {nd : ℕ} (a : DecCoins nd) : DecCoins nd :=
  fun d => Int.tdiv (a d) decUnit

/-- Fractional remainder of `DecCoins.TruncateDecimal`. -/
def truncRemainder {nd : ℕ} (a : DecCoins nd) : DecCoins nd :=
  fun d => a d - Int.tdiv (a d) decUnit * decUnit

/-- The claimed-rewards loop of `withdrawDelegationRewards` (source lines
199-203): for every denomination present in `outstanding` (amount nonzero,
since canonical coin lists carry no zero entries) it claims
`sdk.MaxDec(outstanding amount, maxAmts.AmountOf denom)`; denominations absent
from `outstanding` are never visited and stay at zero. -/
def claimedOf {nd : ℕ} (outstanding maxAmts : DecCoins nd) : DecCoins nd :=
  fun d => if outstanding d = 0 then 0 else max (outstanding d) (maxAmts d)

/-- Canonical list form of whole-unit coins (`sdk.Coins` as a sorted list,
zero amounts dropped), used for the emitted event payload. -/
def coinsToList {nd : ℕ} (a : DecCoins nd) : List (Fin nd × ℤ) :=
  (List.finRange nd).filterMap fun d => if a d = 0 then none else some (d, a d)

end DecCoins

/-- `sdk.Dec.MulTruncate`: multiply two decimals and truncate toward zero. -/
def decMulTruncate (a b : ℤ) : ℤ := Int.tdiv (a * b) decUnit

/-- Delegator starting info (`types.DelegatorStartingInfo`): the period and
stake basis from which the next settlement is computed, plus the height at
which it was written. -/
structure StartingInfo where
  previousPeriod : ℕ
  stake : ℤ
  height : ℕ
  deriving DecidableEq, Repr

/-- Validator slash event (`types.ValidatorSlashEvent`): the period active at
slash time and the fractional reduction (a decimal in `[0, 1]`). -/
structure SlashEvent where
  validatorPeriod : ℕ
  fraction : ℤ
  deriving DecidableEq, Repr

/-- Ledger state visible to the engine for one (validator, delegator) pair.

* `currentPeriod` — the period of `ValidatorCurrentRewards`.
* `currentRatioSnapshot` — the cumulative reward ratio that ending the current
  period would record for it (the "fresh snapshot" of the period ledger
  collaborator).
* `historicalRewards p` — `GetValidatorHistoricalRewards(val, p).CumulativeRewardRatio`.
* `refCount p` — the reference count of historical period `p`.
* `valOutstanding` — `GetValidatorOutstandingRewardsCoins(val)`.
* `delOutstanding` — the per-delegator outstanding store read by
  `DelegationOutstandingRewards`; within this repository nothing ever writes
  it (the only `SetDelegationOutstandingRewards` call is commented out).
* `slashEvents` — the slash-history store, keyed and ordered by height.
* `currentStake` — the staking collaborator value
  `val.TokensFromShares(del.GetShares())` (non-truncating conversion).
* `currentStakeTruncated` — `val.TokensFromSharesTruncated(del.GetShares())`.
* `bankOk` — whether the transfer collaborator
  `SendCoinsFromModuleToAccount` succeeds when invoked.
* `baseDenom` — the chain base denomination (`sdk.GetBaseDenom` falling back
  to `sdk.DefaultBondDenom`).
* `events` — the emitted-event log; each entry is a coin-list payload of a
  settlement notification. -/
structure State (nd : ℕ) where
  blockHeight : ℕ
  currentPeriod : ℕ
  currentRatioSnapshot : DecCoins nd
  historicalRewards : ℕ → DecCoins nd
  refCount : ℕ → ℕ
  startingInfo : Option StartingInfo
  valOutstanding : DecCoins nd
  delOutstanding : DecCoins nd
  communityPool : DecCoins nd
  slashEvents : List (ℕ × SlashEvent)
  currentStake : ℤ
  currentStakeTruncated : ℤ
  bankOk : Bool
  baseDenom : Fin nd
  events : List (List (Fin nd × ℤ))

/-- Modelled from the spec: `IncrementReferenceCount` of the period ledger
collaborator (§6) — bump the reference count of one period. -/
def incrementReferenceCount {nd : ℕ} (s : State nd) (p : ℕ) : State nd :=
  { s with refCount := fun q => if q = p then s.refCount q + 1 else s.refCount q }

/-- Modelled from the spec: `DecrementReferenceCount` of the period ledger
collaborator (§6) — drop the reference count of one period (a count reaching
zero makes the entry eligible for store-internal purging, §3). -/
def decrementReferenceCount {nd : ℕ} (s : State nd) (p : ℕ) : State nd :=
  { s with refCount := fun q => if q = p then s.refCount q - 1 else s.refCount q }

/-- Modelled from the spec: `EndCurrentPeriod(validator) → newPeriodNumber`
(§6, §4.4 step 2) — records a new period ledger entry with a fresh
cumulative-ratio snapshot, advances the current period, and returns the
just-ended period number.  This is the `IncrementValidatorPeriod` collaborator
called by `withdrawDelegationRewards`; the spec treats it as idempotent
bookkeeping outside the financial transaction. -/
def IncrementValidatorPeriod {nd : ℕ} (s : State nd) : ℕ × State nd :=
  (s.currentPeriod,
    { s with
      historicalRewards := fun p =>
        if p = s.currentPeriod then s.currentRatioSnapshot else s.historicalRewards p,
      currentPeriod := s.currentPeriod + 1 })

/-- Embedding of `initializeDelegation` (source lines 12-27): anchor the
delegation to the period preceding the current one, bump that period's
reference count, and record the truncated stake at the current height. -/
def initializeDelegation {nd : ℕ} (s : State nd) : State nd :=
  let previousPeriod := s.currentPeriod - 1
  let s1 := incrementReferenceCount s previousPeriod
  let stake := s1.currentStakeTruncated
  { s1 with startingInfo := some ⟨previousPeriod, stake, s1.blockHeight⟩ }

/-- Embedding of `calculateDelegationRewardsBetween` (source lines 30-57).
The subtraction `ending.CumulativeRewardRatio.Sub(starting.CumulativeRewardRatio)`
itself panics on a negative component (`DecCoins.Sub`), ahead of the
explicit `IsAnyNegative` sanity check that follows it in the source. -/
def calculateDelegationRewardsBetween {nd : ℕ} (s : State nd)
    (startingPeriod endingPeriod : ℕ) (stake : ℤ) : Outcome (DecCoins nd) :=
  if startingPeriod > endingPeriod then
    .fatal "startingPeriod cannot be greater than endingPeriod"
  else if stake < 0 then
    .fatal "stake should not be negative"
  else
    let starting := s.historicalRewards startingPeriod
    let ending := s.historicalRewards endingPeriod
    if ∃ d, ending d - starting d < 0 then .fatal "negative coin amount"
    else
      let difference := DecCoins.sub ending starting
      if ∃ d, difference d < 0 then .fatal "negative rewards should not be possible"
      else .ok (DecCoins.mulDecTruncate difference stake)

/-- Modelled from the spec: `IterateSlashEventsBetween` of the slash-history
collaborator (§6) — the events with height in the half-open range
`(startingHeight, endingHeight]`, in store order (ascending height). -/
def slashEventsBetween {nd : ℕ} (s : State nd) (startingHeight endingHeight : ℕ) :
    List (ℕ × SlashEvent) :=
  s.slashEvents.filter fun he => decide (startingHeight < he.1) && decide (he.1 ≤ endingHeight)

/-- Embedding of the slash-event callback loop of `CalculateDelegationRewards`
(source lines 94-111): the captured mutable variables
`(rewards, stake, startingPeriod)` become an explicit accumulator. -/
def slashLoop {nd : ℕ} (s : State nd) :
    List (ℕ × SlashEvent) → DecCoins nd × ℤ × ℕ → Outcome (DecCoins nd × ℤ × ℕ)
  | [], acc => .ok acc
  | (_, event) :: rest, (rewards, stake, startingPeriod) =>
    let endingPeriod := event.validatorPeriod
    if endingPeriod > startingPeriod then
      match calculateDelegationRewardsBetween s startingPeriod endingPeriod stake with
      | .ok reward =>
          slashLoop s rest
            (DecCoins.add rewards reward,
             decMulTruncate stake (decUnit - event.fraction),
             endingPeriod)
      | .err m => .err m
      | .fatal m => .fatal m
    else
      slashLoop s rest (rewards, stake, startingPeriod)

/-- Embedding of `CalculateDelegationRewards` (source lines 60-155). -/
def CalculateDelegationRewards {nd : ℕ} (s : State nd) (endingPeriod : ℕ) :
    Outcome (DecCoins nd) :=
  let startingInfo := s.startingInfo.getD ⟨0, 0, 0⟩
  if startingInfo.height = s.blockHeight then .ok (DecCoins.zero nd)
  else
    let startingPeriod := startingInfo.previousPeriod
    let stake := startingInfo.stake
    let startingHeight := startingInfo.height
    let endingHeight := s.blockHeight
    let events :=
      if startingHeight < endingHeight then slashEventsBetween s startingHeight endingHeight
      else []
    match slashLoop s events (DecCoins.zero nd, stake, startingPeriod) with
    | .err m => .err m
    | .fatal m => .fatal m
    | .ok (rewards, stake, startingPeriod) =>
      let currentStake := s.currentStake
      let finalAdd := fun (stake : ℤ) =>
        match calculateDelegationRewardsBetween s startingPeriod endingPeriod stake with
        | .ok reward => Outcome.ok (DecCoins.add rewards reward)
        | .err m => Outcome.err m
        | .fatal m => Outcome.fatal m
      if stake > currentStake then
        let marginOfErr := (1 : ℤ) * 3
        if stake ≤ currentStake + marginOfErr then finalAdd currentStake
        else .fatal "calculated final stake for delegator greater than current stake"
      else finalAdd stake

/-- The "no pending rewards" condition of source line 169
(`types.ErrEmptyDelegationDistInfo`). -/
def errEmptyDelegationDistInfo : String := "no delegation distribution info"

/-- The recoverable error surfaced when the transfer collaborator
(`bankKeeper.SendCoinsFromModuleToAccount`, source line 213) rejects the
payout; the concrete message is collaborator-supplied. -/
def errTransferFailed : String := "transfer failed"

/-- The settlement quantities `withdrawDelegationRewards` computes before its
first side effect beyond the period increment (source lines 163-208), kept
explicit so theorems can speak about the internal values:
`s1` is the post-period-increment state, `rewardsRaw` the calculated rewards,
`rewards` the clip against the validator outstanding pool, `outstanding` the
per-delegator accumulator plus `rewards` (source line 193), `claimed` the
result of the cap loop, and `finalRewards`/`remainder` the whole-unit and
fractional parts of `claimed`. -/
structure Plan (nd : ℕ) where
  s1 : State nd
  endingPeriod : ℕ
  rewardsRaw : DecCoins nd
  rewards : DecCoins nd
  outstanding : DecCoins nd
  claimed : DecCoins nd
  finalRewards : DecCoins nd
  remainder : DecCoins nd

/-- Embedding of the computation phase of `withdrawDelegationRewards`
(source lines 163-208): existence check of the starting info, period
increment, reward calculation, clip against the validator outstanding pool
(the logging on a clip, lines 181-188, has no state effect), accumulation
into the per-delegator outstanding value (line 193; the `outstandingCpy`
of lines 195-196 copies into a zero-length buffer and is dead), the
`MaxDec` cap loop, and decimal truncation. -/
def settlePlan {nd : ℕ} (s : State nd) (maxAmounts : DecCoins nd) : Outcome (Plan nd) :=
  if s.startingInfo.isNone then .err errEmptyDelegationDistInfo
  else
    let maxAmts := DecCoins.ofCoins maxAmounts
    let endingPeriod := (IncrementValidatorPeriod s).1
    let s1 := (IncrementValidatorPeriod s).2
    match CalculateDelegationRewards s1 endingPeriod with
    | .err m => .err m
    | .fatal m => .fatal m
    | .ok rewardsRaw =>
      let outstanding0 := s1.valOutstanding
      let rewards := DecCoins.intersect rewardsRaw outstanding0
      let outstanding := DecCoins.add s1.delOutstanding rewards
      let claimed := DecCoins.claimedOf outstanding maxAmts
      let finalRewards := DecCoins.truncateWhole claimed
      let remainder := DecCoins.truncRemainder claimed
      .ok ⟨s1, endingPeriod, rewardsRaw, rewards, outstanding, claimed, finalRewards, remainder⟩

/-- Embedding of the effect phase of `withdrawDelegationRewards` (source
lines 219-256), entered only when no transfer was needed or the transfer
succeeded: write back the outstanding pool (`outstanding.Sub(rewards)`,
whose `DecCoins.Sub` panics on a negative component), feed the remainder to
the community pool, decrement the reference count of the starting period
(re-read from the starting info, line 229), delete the starting info, and
emit the settlement event with a zero-amount base-denomination placeholder
coin when the paid amount is zero. -/
def commitSettlement {nd : ℕ} (p : Plan nd) : State nd × Outcome (DecCoins nd) :=
  if ∃ d, p.outstanding d - p.rewards d < 0 then (p.s1, .fatal "negative coin amount")
  else
    let startingPeriod := (p.s1.startingInfo.getD ⟨0, 0, 0⟩).previousPeriod
    let emittedRewards :=
      if ∀ d, p.finalRewards d = 0 then [(p.s1.baseDenom, (0 : ℤ))]
      else DecCoins.coinsToList p.finalRewards
    ({ p.s1 with
        valOutstanding := DecCoins.sub p.outstanding p.rewards,
        communityPool := DecCoins.add p.s1.communityPool p.remainder,
        refCount := fun q => if q = startingPeriod then p.s1.refCount q - 1 else p.s1.refCount q,
        startingInfo := none,
        events := p.s1.events ++ [emittedRewards] },
     .ok p.finalRewards)

/-- Embedding of `withdrawDelegationRewards` (source lines 157-257).  The
returned state carries the mutations already applied when an error is
surfaced: the missing-starting-info error happens before any mutation and a
transfer failure happens after the period increment only. -/
def withdrawDelegationRewards {nd : ℕ} (s : State nd) (maxAmounts : DecCoins nd) :
    State nd × Outcome (DecCoins nd) :=
  match settlePlan s maxAmounts with
  | .err m => (s, .err m)
  | .fatal m => (s, .fatal m)
  | .ok p =>
    if ∀ d, p.finalRewards d = 0 then commitSettlement p
    else if p.s1.bankOk then commitSettlement p
    else (p.s1, .err errTransferFailed)

/-- Modelled from the spec: the keeper-level withdrawal entry point that
wraps `withdrawDelegationRewards` (its caller is not under src/).  Per the
starting-info lifecycle (§3: deleted exactly once per settlement cycle and
recreated) and the exactly-once property (§8: after a successful withdrawal
the starting info's `previousPeriod` equals the just-ended period), a
successful settlement is followed by re-anchoring the delegation through
`initializeDelegation`. -/
def WithdrawDelegationRewards {nd : ℕ} (s : State nd) (maxAmounts : DecCoins nd) :
    State nd × Outcome (DecCoins nd) :=
  match withdrawDelegationRewards s maxAmounts with
  | (s1, .ok f) => (initializeDelegation s1, .ok f)
  | r => r

/-- Whether an outcome is a fatal panic. -/
def Outcome.isFatal {α : Type} : Outcome α → Bool
  | .fatal _ => true
  | _ => false

/-- Whether an outcome is a recoverable error value returned to the caller. -/
def Outcome.isErr {α : Type} : Outcome α → Bool
  | .err _ => true
  | _ => false

/-- The slash walk exactly as the specification states it (§4.3 step 3): for
each visited event, when its period strictly exceeds the running starting
period, accumulate `(ratio at event period − ratio at starting period) ×
stake` truncated down per denomination, shrink the running stake to
`stake × (1 − slashFraction)` truncated down, and advance the starting
period; otherwise leave the accumulator unchanged.  Stated with mathematical
floor division (`Int.ediv`) on the nonnegative quantities involved, to be
compared against the source-derived `slashLoop`. -/
def slashWalkSpec {nd : ℕ} (s : State nd) :
    List (ℕ × SlashEvent) → DecCoins nd × ℤ × ℕ → DecCoins nd × ℤ × ℕ
  | [], acc => acc
  | (_, event) :: rest, (rewards, stake, startingPeriod) =>
    if startingPeriod < event.validatorPeriod then
      slashWalkSpec s rest
        (DecCoins.add rewards
          (fun d => (s.historicalRewards event.validatorPeriod d -
                     s.historicalRewards startingPeriod d) * stake / decUnit),
         stake * (decUnit - event.fraction) / decUnit,
         event.validatorPeriod)
    else slashWalkSpec s rest (rewards, stake, startingPeriod)

/-- Projection of a successful settlement plan, for stating concrete
instances of theorems whose hypotheses mention the plan. -/
def planOf {nd : ℕ} (s : State nd) (maxAmounts : DecCoins nd) (fallback : Plan nd) : Plan nd :=
  match settlePlan s maxAmounts with
  | .ok p => p
  | _ => fallback

/-- Concrete one-denomination ledger: the closed period 0 carries ratio 0 and
ending the current period 1 records ratio 2.0; the delegation is anchored at
period 0 with stake 1.0 since height 1; the current height is 2; the
validator outstanding pool holds 5.0; the transfer collaborator succeeds.
The owed reward of a withdrawal here is 2.0. -/
def exLedger : State 1 where
  blockHeight := 2
  currentPeriod := 1
  currentRatioSnapshot := fun _ => 2 * decUnit
  historicalRewards := fun _ => fun _ => 0
  refCount := fun _ => 1
  startingInfo := some ⟨0, decUnit, 1⟩
  valOutstanding := fun _ => 5 * decUnit
  delOutstanding := fun _ => 0
  communityPool := fun _ => 0
  slashEvents := []
  currentStake := decUnit
  currentStakeTruncated := decUnit
  bankOk := true
  baseDenom := 0
  events := []

/-- Caller-supplied cap of 1 whole unit, lower than the 2.0 owed in
`exLedger`. -/
def exCap : DecCoins 1 := fun _ => 1

/-- Variant of `exLedger` whose transfer collaborator fails. -/
def exLedgerNoBank : State 1 := { exLedger with bankOk := false }

/-- Variant of `exLedger` owing a purely fractional reward of one smallest
decimal unit, so the whole-unit payout truncates to zero. -/
def exLedgerTiny : State 1 :=
  { exLedger with currentRatioSnapshot := fun _ => 1, valOutstanding := fun _ => decUnit }

/-- Ledger whose historical cumulative ratio at period `p` is `p.0`
(monotone), for exercising the pure reward calculation. -/
def exCalc : State 1 :=
  { exLedger with historicalRewards := fun p => fun _ => (p : ℤ) * decUnit }

/-- Variant of `exLedger` whose anchored stake drifted two smallest decimal
units above the current actual stake (within the tolerated margin). -/
def exDrift : State 1 := { exLedger with startingInfo := some ⟨0, decUnit + 2, 1⟩ }

/-- Variant of `exLedger` whose anchored stake drifted four smallest decimal
units above the current actual stake (beyond the tolerated margin). -/
def exDriftBad : State 1 := { exLedger with startingInfo := some ⟨0, decUnit + 4, 1⟩ }

/-- Ledger with one slash event of fraction 0.5 at height 1 (period 1),
between the anchor height 0 and the current height 2, over the monotone
ratio table of `exCalc`. -/
def exSlash : State 1 :=
  { exCalc with
    startingInfo := some ⟨0, decUnit, 0⟩,
    slashEvents := [(1, ⟨1, decUnit / 2⟩)] }

/-- Concrete successful plan of withdrawing from `exLedger` with no cap. -/
def exPlanFree : Plan 1 :=
  planOf exLedger (fun _ => 0) ⟨exLedger, 0, 0, 0, 0, 0, 0, 0⟩

/-- Concrete successful plan of withdrawing from `exLedger` with the cap
`exCap` of 1 whole unit. -/
def exPlanCap : Plan 1 :=
  planOf exLedger exCap ⟨exLedger, 0, 0, 0, 0, 0, 0, 0⟩

/-- Concrete successful plan of withdrawing from `exLedgerNoBank` with the
cap `exCap`. -/
def exPlanNoBank : Plan 1 :=
  planOf exLedgerNoBank exCap ⟨exLedger, 0, 0, 0, 0, 0, 0, 0⟩

/-- Ledger whose historical cumulative ratio decreases with the period,
violating the monotonicity invariant. -/
def exCalcDec : State 1 :=
  { exCalc with historicalRewards := fun p => fun _ => -(p : ℤ) * decUnit }

theorem decUnit_pos : 0 < decUnit := by norm_num [decUnit]

theorem DecCoins.zero_add_left {nd : ℕ} (a : DecCoins nd) : DecCoins.add (DecCoins.zero nd) a = a := by
  funext d
  simp [DecCoins.add, DecCoins.zero]

/-- Projections of the period-increment state: only the historical table and
the current period change. -/
theorem incPeriod_fields {nd : ℕ} (s : State nd) :
    (IncrementValidatorPeriod s).2.valOutstanding = s.valOutstanding ∧
    (IncrementValidatorPeriod s).2.delOutstanding = s.delOutstanding ∧
    (IncrementValidatorPeriod s).2.communityPool = s.communityPool ∧
    (IncrementValidatorPeriod s).2.refCount = s.refCount ∧
    (IncrementValidatorPeriod s).2.startingInfo = s.startingInfo ∧
    (IncrementValidatorPeriod s).2.currentPeriod = s.currentPeriod + 1 ∧
    (IncrementValidatorPeriod s).2.bankOk = s.bankOk ∧
    (IncrementValidatorPeriod s).2.blockHeight = s.blockHeight ∧
    (IncrementValidatorPeriod s).2.baseDenom = s.baseDenom ∧
    (IncrementValidatorPeriod s).2.currentStakeTruncated = s.currentStakeTruncated :=
  ⟨rfl, rfl, rfl, rfl, rfl, rfl, rfl, rfl, rfl, rfl⟩

/-- Evaluation of the pure between-periods calculation when its three
invariants hold: the result is the ratio difference times the stake with
floor division by the scale (truncation toward zero agrees with flooring on
these nonnegative quantities). -/
theorem between_eval {nd : ℕ} (s : State nd) (sp ep : ℕ) (stake : ℤ)
    (h1 : sp ≤ ep) (h2 : 0 ≤ stake)
    (h3 : ∀ d, s.historicalRewards sp d ≤ s.historicalRewards ep d) :
    calculateDelegationRewardsBetween s sp ep stake =
      .ok (fun d => (s.historicalRewards ep d - s.historicalRewards sp d) * stake / decUnit) := by
  rw [calculateDelegationRewardsBetween]
  rw [if_neg (not_lt.2 h1), if_neg (not_lt.2 h2)]
  rw [if_neg (by push_neg; intro d; exact sub_nonneg.2 (h3 d))]
  rw [if_neg (by push_neg; intro d; exact sub_nonneg.2 (h3 d))]
  congr 1
  funext d
  exact Int.tdiv_eq_ediv (mul_nonneg (sub_nonneg.2 (h3 d)) h2) (le_of_lt decUnit_pos)

theorem between_ne_err {nd : ℕ} (s : State nd) (sp ep : ℕ) (stake : ℤ) (m : String) :
    calculateDelegationRewardsBetween s sp ep stake ≠ .err m := by
  intro h
  simp only [calculateDelegationRewardsBetween] at h
  split_ifs at h

theorem between_ok_nonneg {nd : ℕ} {s : State nd} {sp ep : ℕ} {stake : ℤ} {r : DecCoins nd}
    (h : calculateDelegationRewardsBetween s sp ep stake = .ok r) : ∀ d, 0 ≤ r d := by
  simp only [calculateDelegationRewardsBetween] at h
  split_ifs at h with h1 h2 h3 h4
  injection h with h
  subst h
  intro d
  refine Int.tdiv_nonneg ?_ (le_of_lt decUnit_pos)
  push_neg at h3
  exact mul_nonneg (by simpa [DecCoins.sub] using h3 d) (not_lt.1 h2)

theorem slashLoop_ne_err {nd : ℕ} (s : State nd) :
    ∀ (evs : List (ℕ × SlashEvent)) (acc : DecCoins nd × ℤ × ℕ) (m : String),
      slashLoop s evs acc ≠ .err m := by
  intro evs
  induction evs with
  | nil =>
    intro acc m h
    simp only [slashLoop] at h
    exact absurd h (by simp)
  | cons he rest ih =>
    intro acc m h
    obtain ⟨h0, ev⟩ := he
    obtain ⟨rewards, stake, sp⟩ := acc
    simp only [slashLoop] at h
    split at h
    · split at h
      · exact ih _ m h
      · rename_i heq
        injection h with h
        subst h
        exact between_ne_err _ _ _ _ _ heq
      · simp at h
    · exact ih _ m h

theorem slashLoop_ok_nonneg {nd : ℕ} (s : State nd) :
    ∀ (evs : List (ℕ × SlashEvent)) (rew : DecCoins nd) (st : ℤ) (sp : ℕ)
      (rew2 : DecCoins nd) (st2 : ℤ) (sp2 : ℕ),
      slashLoop s evs (rew, st, sp) = .ok (rew2, st2, sp2) →
      (∀ d, 0 ≤ rew d) → ∀ d, 0 ≤ rew2 d := by
  intro evs
  induction evs with
  | nil =>
    intro rew st sp rew2 st2 sp2 h hnn
    simp only [slashLoop, Outcome.ok.injEq, Prod.mk.injEq] at h
    obtain ⟨rfl, rfl, rfl⟩ := h
    exact hnn
  | cons he rest ih =>
    intro rew st sp rew2 st2 sp2 h hnn
    obtain ⟨h0, ev⟩ := he
    simp only [slashLoop] at h
    split at h
    · split at h
      · rename_i heq
        exact ih _ _ _ _ _ _ h fun d => add_nonneg (hnn d) (between_ok_nonneg heq d)
      · simp at h
      · simp at h
    · exact ih _ _ _ _ _ _ h hnn

/-- The source slash loop agrees with the walk the specification describes,
whenever the store invariants hold: cumulative ratios are monotone across
periods, slash fractions lie in `[0, 1]`, and the running stake starts
nonnegative.  In particular the loop cannot panic, skipped events leave the
accumulator untouched, and processed events accumulate at the pre-slash
stake before shrinking it. -/
theorem slashLoop_eq_walkSpec {nd : ℕ} (s : State nd)
    (hmono : ∀ p q, p ≤ q → ∀ d, s.historicalRewards p d ≤ s.historicalRewards q d) :
    ∀ (evs : List (ℕ × SlashEvent)),
      (∀ e ∈ evs, 0 ≤ e.2.fraction ∧ e.2.fraction ≤ decUnit) →
      ∀ (rewards : DecCoins nd) (stake : ℤ) (sp : ℕ), 0 ≤ stake →
      slashLoop s evs (rewards, stake, sp) = .ok (slashWalkSpec s evs (rewards, stake, sp)) := by
  intro evs
  induction evs with
  | nil => intro _ rewards stake sp _; rfl
  | cons he rest ih =>
    intro hfrac rewards stake sp hst
    obtain ⟨h0, ev⟩ := he
    have hf : 0 ≤ decUnit - ev.fraction :=
      sub_nonneg.2 (hfrac (h0, ev) (List.mem_cons_self _ _)).2
    simp only [slashLoop, slashWalkSpec]
    by_cases hper : sp < ev.validatorPeriod
    · rw [if_pos hper, if_pos hper]
      rw [between_eval s sp ev.validatorPeriod stake (le_of_lt hper) hst
            (hmono sp _ (le_of_lt hper))]
      have hstake : decMulTruncate stake (decUnit - ev.fraction) =
          stake * (decUnit - ev.fraction) / decUnit :=
        Int.tdiv_eq_ediv (mul_nonneg hst hf) (le_of_lt decUnit_pos)
      rw [hstake]
      exact ih (fun e he => hfrac e (List.mem_cons_of_mem _ he)) _ _ _
        (Int.ediv_nonneg (mul_nonneg hst hf) (le_of_lt decUnit_pos))
    · rw [if_neg hper, if_neg hper]
      exact ih (fun e he => hfrac e (List.mem_cons_of_mem _ he)) rewards stake sp hst

/-- Shape of `CalculateDelegationRewards` when no slash event falls in the
accrual window: the whole result is the final-interval calculation, with the
stake clamped down to the current actual stake when it drifted above it by at
most the tolerated margin, and a fatal panic beyond that margin. -/
theorem calc_noslash {nd : ℕ} (s : State nd) (ep : ℕ) (si : StartingInfo)
    (hsi : s.startingInfo = some si) (hh : ¬ si.height = s.blockHeight)
    (hev : slashEventsBetween s si.height s.blockHeight = []) :
    CalculateDelegationRewards s ep =
      if si.stake > s.currentStake then
        (if si.stake ≤ s.currentStake + 3 then
          calculateDelegationRewardsBetween s si.previousPeriod ep s.currentStake
         else .fatal "calculated final stake for delegator greater than current stake")
      else calculateDelegationRewardsBetween s si.previousPeriod ep si.stake := by
  simp only [CalculateDelegationRewards, hsi, Option.getD_some, one_mul]
  rw [if_neg hh]
  have hevents :
      (if si.height < s.blockHeight then slashEventsBetween s si.height s.blockHeight else []) =
        ([] : List (ℕ × SlashEvent)) := by
    split
    · exact hev
    · rfl
  rw [hevents]
  simp only [slashLoop]
  by_cases h1 : si.stake > s.currentStake
  · rw [if_pos h1, if_pos h1]
    by_cases h2 : si.stake ≤ s.currentStake + 3
    · rw [if_pos h2, if_pos h2]
      cases hb : calculateDelegationRewardsBetween s si.previousPeriod ep s.currentStake <;>
        simp [hb, DecCoins.zero_add_left]
    · rw [if_neg h2, if_neg h2]
  · rw [if_neg h1, if_neg h1]
    cases hb : calculateDelegationRewardsBetween s si.previousPeriod ep si.stake <;>
      simp [hb, DecCoins.zero_add_left]

theorem calc_ne_err {nd : ℕ} (s : State nd) (ep : ℕ) (m : String) :
    CalculateDelegationRewards s ep ≠ .err m := by
  intro h
  simp only [CalculateDelegationRewards] at h
  split at h
  · exact absurd h (by simp)
  · split at h
    · rename_i heq
      injection h with h
      subst h
      exact slashLoop_ne_err s _ _ _ heq
    · simp at h
    · split_ifs at h
      · split at h
        · simp at h
        · rename_i heq
          injection h with h
          subst h
          exact between_ne_err _ _ _ _ _ heq
        · simp at h
      · split at h
        · simp at h
        · rename_i heq
          injection h with h
          subst h
          exact between_ne_err _ _ _ _ _ heq
        · simp at h

/-- Inversion of a successful `settlePlan`: how each plan field was computed
(source lines 163-208). -/
theorem settlePlan_ok_inv {nd : ℕ} {s : State nd} {caps : DecCoins nd} {p : Plan nd}
    (hp : settlePlan s caps = .ok p) :
    s.startingInfo ≠ none ∧
    p.s1 = (IncrementValidatorPeriod s).2 ∧
    p.endingPeriod = s.currentPeriod ∧
    CalculateDelegationRewards (IncrementValidatorPeriod s).2 s.currentPeriod = .ok p.rewardsRaw ∧
    p.rewards = DecCoins.intersect p.rewardsRaw (IncrementValidatorPeriod s).2.valOutstanding ∧
    p.outstanding = DecCoins.add (IncrementValidatorPeriod s).2.delOutstanding p.rewards ∧
    p.claimed = DecCoins.claimedOf p.outstanding (DecCoins.ofCoins caps) ∧
    p.finalRewards = DecCoins.truncateWhole p.claimed ∧
    p.remainder = DecCoins.truncRemainder p.claimed := by
  simp only [settlePlan] at hp
  split at hp
  · exact absurd hp (by simp)
  · rename_i hnone
    split at hp
    · simp at hp
    · simp at hp
    · rename_i raw heq
      injection hp with hp
      subst hp
      exact ⟨by simpa using hnone, rfl, rfl, heq, rfl, rfl, rfl, rfl, rfl⟩

/-- Inversion of a successful `withdrawDelegationRewards`: it went through a
successful plan and the commit phase. -/
theorem withdraw_ok_inv {nd : ℕ} {s : State nd} {caps : DecCoins nd} {s0 : State nd}
    {f : DecCoins nd} (h : withdrawDelegationRewards s caps = (s0, .ok f)) :
    ∃ p, settlePlan s caps = .ok p ∧ commitSettlement p = (s0, .ok f) := by
  simp only [withdrawDelegationRewards] at h
  split at h
  · exact absurd (congrArg Prod.snd h) (by simp)
  · exact absurd (congrArg Prod.snd h) (by simp)
  · rename_i p heq
    split_ifs at h
    · exact ⟨p, heq, h⟩
    · exact ⟨p, heq, h⟩
    · exact absurd (congrArg Prod.snd h) (by simp)

/-- Inversion of a successful commit: the returned value is the plan's
whole-unit rewards and the resulting state is one record update of the
post-increment state. -/
theorem commit_ok_inv {nd : ℕ} {p : Plan nd} {s0 : State nd} {f : DecCoins nd}
    (h : commitSettlement p = (s0, .ok f)) :
    f = p.finalRewards ∧
    ¬(∃ d, p.outstanding d - p.rewards d < 0) ∧
    s0 = { p.s1 with
      valOutstanding := DecCoins.sub p.outstanding p.rewards,
      communityPool := DecCoins.add p.s1.communityPool p.remainder,
      refCount := fun q =>
        if q = (p.s1.startingInfo.getD ⟨0, 0, 0⟩).previousPeriod then p.s1.refCount q - 1
        else p.s1.refCount q,
      startingInfo := none,
      events := p.s1.events ++
        [if ∀ d, p.finalRewards d = 0 then [(p.s1.baseDenom, (0 : ℤ))]
         else DecCoins.coinsToList p.finalRewards] } := by
  simp only [commitSettlement] at h
  split at h
  · exact absurd (congrArg Prod.snd h) (by simp)
  · rename_i hneg
    have hs0 := congrArg Prod.fst h
    have hf := congrArg Prod.snd h
    simp only at hs0 hf
    injection hf with hf
    exact ⟨hf.symm, hneg, hs0.symm⟩

theorem calc_ok_nonneg {nd : ℕ} {s : State nd} {ep : ℕ} {v : DecCoins nd}
    (h : CalculateDelegationRewards s ep = .ok v) : ∀ d, 0 ≤ v d := by
  simp only [CalculateDelegationRewards] at h
  split at h
  · injection h with h
    subst h
    intro d
    simp [DecCoins.zero]
  · split at h
    · simp at h
    · simp at h
    · rename_i rewards stake sp heq
      have hrew : ∀ d, 0 ≤ rewards d :=
        slashLoop_ok_nonneg s _ _ _ _ _ _ _ heq (by intro d; simp [DecCoins.zero])
      split_ifs at h
      · split at h
        · rename_i heq2
          injection h with h
          subst h
          intro d
          exact add_nonneg (hrew d) (between_ok_nonneg heq2 d)
        · simp at h
        · simp at h
      · split at h
        · rename_i heq2
          injection h with h
          subst h
          intro d
          exact add_nonneg (hrew d) (between_ok_nonneg heq2 d)
        · simp at h
        · simp at h

/-- A withdrawal from a state whose starting info was written at the current
block height pays out exactly zero: the calculation short-circuits, the claim
loop sees only zero amounts, and the settlement commits a zero payout. -/
theorem withdraw_anchored_now_zero {nd : ℕ} (s : State nd) (caps : DecCoins nd)
    (si : StartingInfo) (hsi : s.startingInfo = some si) (hh : si.height = s.blockHeight)
    (hdel : ∀ d, s.delOutstanding d = 0) (hval : ∀ d, 0 ≤ s.valOutstanding d) :
    ∃ s0, withdrawDelegationRewards s caps = (s0, .ok (DecCoins.zero nd)) := by
  have hcalc : CalculateDelegationRewards (IncrementValidatorPeriod s).2
      (IncrementValidatorPeriod s).1 = .ok (DecCoins.zero nd) := by
    simp only [CalculateDelegationRewards]
    rw [show (IncrementValidatorPeriod s).2.startingInfo = some si from hsi, Option.getD_some]
    rw [if_pos (show si.height = (IncrementValidatorPeriod s).2.blockHeight from hh)]
  obtain ⟨p, hp⟩ : ∃ p, settlePlan s caps = .ok p := by
    cases hsp : settlePlan s caps with
    | ok p => exact ⟨p, rfl⟩
    | err m =>
      exfalso
      simp only [settlePlan, hsi, Option.isNone_some, Bool.false_eq_true, if_false] at hsp
      simp [hcalc] at hsp
    | fatal m =>
      exfalso
      simp only [settlePlan, hsi, Option.isNone_some, Bool.false_eq_true, if_false] at hsp
      simp [hcalc] at hsp
  obtain ⟨hne, hs1, hep, hcalc2, hrew, hout, hclaim, hfin, hrem⟩ := settlePlan_ok_inv hp
  have hraw0 : p.rewardsRaw = DecCoins.zero nd := by
    have h := hcalc2.symm.trans hcalc
    injection h with h
  have hrews0 : ∀ d, p.rewards d = 0 := by
    intro d
    rw [hrew, hraw0]
    show min (DecCoins.zero nd d) ((IncrementValidatorPeriod s).2.valOutstanding d) = 0
    exact min_eq_left (hval d)
  have hout0 : ∀ d, p.outstanding d = 0 := by
    intro d
    rw [hout]
    show s.delOutstanding d + p.rewards d = 0
    rw [hdel d, hrews0 d]
    norm_num
  have hclaim0 : ∀ d, p.claimed d = 0 := by
    intro d
    rw [hclaim]
    show (if p.outstanding d = 0 then 0 else max (p.outstanding d) (DecCoins.ofCoins caps d)) = 0
    rw [if_pos (hout0 d)]
  have hfin0 : p.finalRewards = DecCoins.zero nd := by
    funext d
    rw [hfin]
    show Int.tdiv (p.claimed d) decUnit = 0
    rw [hclaim0 d]
    exact Int.zero_tdiv _
  refine ⟨(withdrawDelegationRewards s caps).1, Prod.ext rfl ?_⟩
  show (withdrawDelegationRewards s caps).2 = .ok (DecCoins.zero nd)
  simp only [withdrawDelegationRewards, hp]
  rw [if_pos (show ∀ d, p.finalRewards d = 0 from fun d => by rw [hfin0]; rfl)]
  simp only [commitSettlement]
  rw [if_neg (show ¬∃ d, p.outstanding d - p.rewards d < 0 from by
    push_neg
    intro d
    rw [hout0 d, hrews0 d]
    norm_num)]
  rw [hfin0]

/-- C1 (code_bug evaluation).  The claim (and spec §4.4 step 5) says the
amount claimed per denomination is the LESSER of the owed clipped reward and
the caller-supplied cap, so with a cap below the owed rewards the payout
should equal the cap.  On `exLedger` the owed clipped reward is 2.0 and the
cap `exCap` is 1.0, yet the code claims 2.0 and pays out 2 whole units: the
loop at source line 201 takes `sdk.MaxDec(outstanding, cap)` — the greater,
not the lesser — so a cap lower than the owed amount is ignored (and a cap
higher than the owed amount would be claimed in full, letting a delegator
withdraw more than is owed, contradicting the repeated source notes that one
must never withdraw more rewards than owed). -/
theorem C1_cap_ignored_pays_owed :
    exPlanCap.rewards 0 = 2 * decUnit ∧
    DecCoins.ofCoins exCap 0 = decUnit ∧
    exPlanCap.claimed 0 = 2 * decUnit ∧
    (withdrawDelegationRewards exLedger exCap).2 = Outcome.ok (fun _ => 2) ∧
    exPlanCap.claimed 0 ≠ min (exPlanCap.rewards 0) (DecCoins.ofCoins exCap 0) :=
  ⟨by decide, by decide, by decide, by decide, by decide⟩

/-- C2 (code_bug evaluation).  The claim (and spec §4.4 step 7) says a
successful withdrawal decreases the validator outstanding pool by exactly the
full clipped rewards.  On `exLedger` the pool holds 5.0 and the clipped
rewards are 2.0, so the pool should end at 3.0; instead the code leaves it at
0: the second `outstanding :=` binding at source line 192 replaces the
validator pool read at line 175 with the (never-written) per-delegator
accumulator, so line 221 stores `delegationOutstanding + rewards - rewards`
— erasing the 3.0 owed to other delegators — rather than subtracting from
the validator pool.  (The truncation remainder, here 0, is added to the
community pool as claimed.) -/
theorem C2_outstanding_pool_erased :
    exLedger.valOutstanding 0 = 5 * decUnit ∧
    exPlanCap.rewards 0 = 2 * decUnit ∧
    DecCoins.sub exLedger.valOutstanding exPlanCap.rewards 0 = 3 * decUnit ∧
    (withdrawDelegationRewards exLedger exCap).1.valOutstanding 0 = 0 ∧
    (withdrawDelegationRewards exLedger exCap).1.valOutstanding 0 ≠
      DecCoins.sub exLedger.valOutstanding exPlanCap.rewards 0 :=
  ⟨by decide, by decide, by decide, by decide, by decide⟩

/-- C5 (confirmed).  Whenever `startingPeriod ≤ endingPeriod`, the stake is
nonnegative, and the per-denomination ratio difference is nonnegative, the
between-periods calculation returns `(ending ratio − starting ratio) × stake`
divided by the decimal scale, truncated down per denomination (floor division
agrees with the source truncation toward zero on these nonnegative values). -/
theorem C5_between_periods_formula {nd : ℕ} (s : State nd) (sp ep : ℕ) (stake : ℤ)
    (h1 : sp ≤ ep) (h2 : 0 ≤ stake)
    (h3 : ∀ d, s.historicalRewards sp d ≤ s.historicalRewards ep d) :
    calculateDelegationRewardsBetween s sp ep stake =
      .ok (fun d => (s.historicalRewards ep d - s.historicalRewards sp d) * stake / decUnit) :=
  between_eval s sp ep stake h1 h2 h3

/-- C5 witness: on `exCalc` (ratio `p.0` at period `p`) between periods 1 and
3 with stake 0.5, the reward is exactly `2.0 × 0.5 = 1.0`. -/
theorem C5_witness :
    (1 : ℕ) ≤ 3 ∧ (0 : ℤ) ≤ decUnit / 2 ∧
    calculateDelegationRewardsBetween exCalc 1 3 (decUnit / 2) =
      .ok (fun d => (exCalc.historicalRewards 3 d - exCalc.historicalRewards 1 d) *
        (decUnit / 2) / decUnit) :=
  ⟨by decide, by decide,
    C5_between_periods_formula exCalc 1 3 (decUnit / 2) (by decide) (by decide) (by decide)⟩

/-- C8 (confirmed).  With no slash event in the accrual window, when the
accumulated stake (here the anchored starting stake) exceeds the current
actual stake — the staking collaborator value sharesHeld × tokensPerShare,
non-truncating, recorded in `currentStake` — by at most 3 units of the
smallest representable decimal increment, the final-interval rewards are
computed with the stake clamped down to the current actual stake; a drift
strictly beyond 3 smallest units is a fatal panic. -/
theorem C8_drift_clamped_or_fatal {nd : ℕ} (s : State nd) (ep : ℕ) (si : StartingInfo)
    (hsi : s.startingInfo = some si) (hh : ¬ si.height = s.blockHeight)
    (hev : slashEventsBetween s si.height s.blockHeight = [])
    (hgt : s.currentStake < si.stake) :
    (si.stake ≤ s.currentStake + 3 →
      CalculateDelegationRewards s ep =
        calculateDelegationRewardsBetween s si.previousPeriod ep s.currentStake) ∧
    (s.currentStake + 3 < si.stake → (CalculateDelegationRewards s ep).isFatal = true) := by
  constructor
  · intro hle
    rw [calc_noslash s ep si hsi hh hev, if_pos hgt, if_pos hle]
  · intro hlt
    rw [calc_noslash s ep si hsi hh hev, if_pos hgt, if_neg (not_le.2 hlt)]
    rfl

/-- C8 witness: on `exDrift` the anchored stake is 2 smallest units above the
current stake, so the final interval is computed at the clamped current
stake. -/
theorem C8_witness :
    CalculateDelegationRewards exDrift 1 =
      calculateDelegationRewardsBetween exDrift 0 1 exDrift.currentStake :=
  (C8_drift_clamped_or_fatal exDrift 1 ⟨0, decUnit + 2, 1⟩ rfl (by decide) (by decide)
    (by decide)).1 (by decide)

/-- C6 (confirmed).  Each invariant violation — starting period greater than
ending period, negative stake, a negative per-denomination ratio difference,
or stake drift beyond the tolerated 3 smallest units — makes the calculation
end in a fatal panic, and neither calculation ever yields a recoverable
error value. -/
theorem C6_invariant_violations_panic {nd : ℕ} (s : State nd) :
    (∀ sp ep stake, ep < sp →
      (calculateDelegationRewardsBetween s sp ep stake).isFatal = true) ∧
    (∀ sp ep stake, sp ≤ ep → stake < 0 →
      (calculateDelegationRewardsBetween s sp ep stake).isFatal = true) ∧
    (∀ sp ep stake, sp ≤ ep → 0 ≤ stake →
      (∃ d, s.historicalRewards ep d < s.historicalRewards sp d) →
      (calculateDelegationRewardsBetween s sp ep stake).isFatal = true) ∧
    (∀ ep si, s.startingInfo = some si → ¬ si.height = s.blockHeight →
      slashEventsBetween s si.height s.blockHeight = [] →
      s.currentStake + 3 < si.stake →
      (CalculateDelegationRewards s ep).isFatal = true) ∧
    (∀ sp ep stake m, calculateDelegationRewardsBetween s sp ep stake ≠ .err m) ∧
    (∀ ep m, CalculateDelegationRewards s ep ≠ .err m) := by
  refine ⟨?_, ?_, ?_, ?_, ?_, ?_⟩
  · intro sp ep stake h
    rw [calculateDelegationRewardsBetween, if_pos h]
    rfl
  · intro sp ep stake h1 h2
    rw [calculateDelegationRewardsBetween, if_neg (not_lt.2 h1), if_pos h2]
    rfl
  · intro sp ep stake h1 h2 h3
    obtain ⟨d, hd⟩ := h3
    rw [calculateDelegationRewardsBetween, if_neg (not_lt.2 h1), if_neg (not_lt.2 h2)]
    rw [if_pos ⟨d, sub_neg.mpr hd⟩]
    rfl
  · intro ep si hsi hh hev hdrift
    rw [calc_noslash s ep si hsi hh hev, if_pos (by linarith), if_neg (not_le.2 hdrift)]
    rfl
  · exact fun sp ep stake m => between_ne_err s sp ep stake m
  · exact fun ep m => calc_ne_err s ep m

/-- C6 witness: four concrete invariant violations each end in a panic, and
two intact calls end without a recoverable error. -/
theorem C6_witness :
    (calculateDelegationRewardsBetween exLedger 1 0 0).isFatal = true ∧
    (calculateDelegationRewardsBetween exLedger 0 1 (-1)).isFatal = true ∧
    (calculateDelegationRewardsBetween exCalcDec 0 1 0).isFatal = true ∧
    (CalculateDelegationRewards exDriftBad 1).isFatal = true ∧
    (calculateDelegationRewardsBetween exLedger 0 1 decUnit).isErr = false ∧
    (CalculateDelegationRewards exLedger 1).isErr = false := by
  refine ⟨(C6_invariant_violations_panic exLedger).1 1 0 0 (by decide),
    (C6_invariant_violations_panic exLedger).2.1 0 1 (-1) (by decide) (by decide),
    (C6_invariant_violations_panic exCalcDec).2.2.1 0 1 0 (by decide) (by decide)
      ⟨0, by decide⟩,
    (C6_invariant_violations_panic exDriftBad).2.2.2.1 1 ⟨0, decUnit + 4, 1⟩ rfl
      (by decide) (by decide) (by decide), ?_, ?_⟩
  · cases hb : calculateDelegationRewardsBetween exLedger 0 1 decUnit with
    | ok v => rfl
    | err m => exact absurd hb ((C6_invariant_violations_panic exLedger).2.2.2.2.1 0 1 decUnit m)
    | fatal m => rfl
  · cases hb : CalculateDelegationRewards exLedger 1 with
    | ok v => rfl
    | err m => exact absurd hb ((C6_invariant_violations_panic exLedger).2.2.2.2.2 1 m)
    | fatal m => rfl

/-- C7 (confirmed).  Under the store invariants (monotone cumulative ratios,
slash fractions in `[0, 1]`, events sorted by height) and a nonnegative
running stake, the slash-event traversal of `CalculateDelegationRewards`
visits exactly the events with height in `(startingHeight, endingHeight]` in
ascending height order, and its loop equals the walk the claim describes:
an event whose period strictly exceeds the running starting period
accumulates `(ratio at event period − ratio at running period) × stake`
truncated down at the current running stake, then shrinks the stake to
`stake × (1 − slashFraction)` truncated down and advances the running period
to the event period, while any other event leaves rewards, stake and period
unchanged. -/
theorem C7_slash_walk {nd : ℕ} (s : State nd)
    (hmono : ∀ p q, p ≤ q → ∀ d, s.historicalRewards p d ≤ s.historicalRewards q d)
    (hfrac : ∀ e ∈ s.slashEvents, 0 ≤ e.2.fraction ∧ e.2.fraction ≤ decUnit)
    (hsorted : List.Pairwise (fun a b => a.1 < b.1) s.slashEvents) :
    ∀ (startingHeight endingHeight : ℕ) (rewards : DecCoins nd) (stake : ℤ) (sp : ℕ),
      0 ≤ stake →
      (∀ he, he ∈ slashEventsBetween s startingHeight endingHeight ↔
        he ∈ s.slashEvents ∧ startingHeight < he.1 ∧ he.1 ≤ endingHeight) ∧
      List.Pairwise (fun a b => a.1 < b.1)
        (slashEventsBetween s startingHeight endingHeight) ∧
      slashLoop s (slashEventsBetween s startingHeight endingHeight) (rewards, stake, sp) =
        .ok (slashWalkSpec s (slashEventsBetween s startingHeight endingHeight)
          (rewards, stake, sp)) := by
  intro a b rewards stake sp hst
  refine ⟨?_, ?_, ?_⟩
  · intro he
    simp [slashEventsBetween, List.mem_filter, and_assoc]
  · exact List.Pairwise.sublist (List.filter_sublist _) hsorted
  · exact slashLoop_eq_walkSpec s hmono _
      (fun e he => hfrac e (List.mem_of_mem_filter he)) rewards stake sp hst

/-- C7 witness: on `exSlash` (one slash event of fraction 0.5 at height 1,
period 1, over the monotone ratio table `p.0`), the loop over the events in
`(0, 2]` equals the specified walk. -/
theorem C7_witness :
    ((1, (⟨1, decUnit / 2⟩ : SlashEvent)) ∈ slashEventsBetween exSlash 0 2 ↔
      (1, (⟨1, decUnit / 2⟩ : SlashEvent)) ∈ exSlash.slashEvents ∧ 0 < 1 ∧ 1 ≤ 2) ∧
    slashLoop exSlash (slashEventsBetween exSlash 0 2) (DecCoins.zero 1, decUnit, 0) =
      .ok (slashWalkSpec exSlash (slashEventsBetween exSlash 0 2)
        (DecCoins.zero 1, decUnit, 0)) := by
  have h := C7_slash_walk exSlash
    (by
      intro p q hpq d
      show (p : ℤ) * decUnit ≤ (q : ℤ) * decUnit
      exact mul_le_mul_of_nonneg_right (by exact_mod_cast hpq) (le_of_lt decUnit_pos))
    (by decide) (by decide) 0 2 (DecCoins.zero 1) decUnit 0 (by decide)
  exact ⟨h.1 _, h.2.2⟩

/-- C3 (confirmed, with the period increment modelled from the spec).  When
the settlement reaches the transfer step (a successful plan with a nonzero
whole-unit payout) and the transfer collaborator fails, the withdrawal
returns the transfer error and the resulting state is exactly the
post-period-increment state: the validator outstanding pool, the community
pool, the reference counts and the starting info are all unchanged, and only
the already-committed period increment (and its historical snapshot) remains. -/
theorem C3_transfer_failure_no_mutation {nd : ℕ} (s : State nd) (caps : DecCoins nd)
    (p : Plan nd) (hp : settlePlan s caps = .ok p)
    (hnz : ¬ ∀ d, p.finalRewards d = 0) (hb : s.bankOk = false) :
    withdrawDelegationRewards s caps =
      ((IncrementValidatorPeriod s).2, .err errTransferFailed) ∧
    (IncrementValidatorPeriod s).2.valOutstanding = s.valOutstanding ∧
    (IncrementValidatorPeriod s).2.communityPool = s.communityPool ∧
    (IncrementValidatorPeriod s).2.refCount = s.refCount ∧
    (IncrementValidatorPeriod s).2.startingInfo = s.startingInfo ∧
    (IncrementValidatorPeriod s).2.currentPeriod = s.currentPeriod + 1 := by
  obtain ⟨_, hs1, _⟩ := settlePlan_ok_inv hp
  refine ⟨?_, rfl, rfl, rfl, rfl, rfl⟩
  simp only [withdrawDelegationRewards, hp]
  rw [if_neg hnz]
  have hbank : p.s1.bankOk = false := by rw [hs1]; exact hb
  rw [hbank]
  simp only [Bool.false_eq_true, if_false]
  rw [hs1]

/-- C3 witness: on `exLedgerNoBank` (owed 2.0, failing transfer
collaborator) the withdrawal errs and mutates nothing beyond the period
increment. -/
theorem C3_witness :
    withdrawDelegationRewards exLedgerNoBank exCap =
      ((IncrementValidatorPeriod exLedgerNoBank).2, .err errTransferFailed) ∧
    (IncrementValidatorPeriod exLedgerNoBank).2.valOutstanding =
      exLedgerNoBank.valOutstanding ∧
    (IncrementValidatorPeriod exLedgerNoBank).2.communityPool =
      exLedgerNoBank.communityPool ∧
    (IncrementValidatorPeriod exLedgerNoBank).2.refCount = exLedgerNoBank.refCount ∧
    (IncrementValidatorPeriod exLedgerNoBank).2.startingInfo =
      exLedgerNoBank.startingInfo ∧
    (IncrementValidatorPeriod exLedgerNoBank).2.currentPeriod =
      exLedgerNoBank.currentPeriod + 1 :=
  C3_transfer_failure_no_mutation exLedgerNoBank exCap exPlanNoBank rfl (by decide) rfl

/-- C9 counterexample.  The claim says the placeholder coin emitted on a
zero payout is nonzero; on `exLedgerTiny` the payout truncates to zero and
the settlement event carries exactly the single coin
`(baseDenom, 0)` — a coin whose amount is zero (the source builds it with
`sdk.NewCoin(baseDenom, sdk.ZeroInt())`), refuting the stated amount. -/
theorem C9_counterexample_zero_amount :
    (withdrawDelegationRewards exLedgerTiny (fun _ => 0)).2 = Outcome.ok (fun _ => 0) ∧
    (withdrawDelegationRewards exLedgerTiny (fun _ => 0)).1.events =
      [[(exLedgerTiny.baseDenom, 0)]] :=
  ⟨by decide, by decide⟩

/-- C9 amended (proved).  When the whole-unit paid amount of a successful
withdrawal is exactly zero, the emitted settlement event carries a canonical
ZERO-amount placeholder coin of the chain's base denomination — a non-empty,
well-formed single-coin payload (built explicitly so the zero coin is not
stripped), rather than an empty amount. -/
theorem C9_zero_payout_placeholder {nd : ℕ} (s : State nd) (caps : DecCoins nd)
    (s0 : State nd) (f : DecCoins nd)
    (hw : withdrawDelegationRewards s caps = (s0, .ok f)) (hz : ∀ d, f d = 0) :
    s0.events = s.events ++ [[(s.baseDenom, (0 : ℤ))]] := by
  obtain ⟨p, hp, hc⟩ := withdraw_ok_inv hw
  obtain ⟨hf, hneg, hs0⟩ := commit_ok_inv hc
  obtain ⟨_, hs1, _⟩ := settlePlan_ok_inv hp
  have hz2 : ∀ d, p.finalRewards d = 0 := by rw [← hf]; exact hz
  rw [hs0]
  show p.s1.events ++ _ = _
  rw [if_pos hz2, hs1]
  rfl

/-- C9 amended witness: the `exLedgerTiny` withdrawal pays zero and appends
exactly the zero-amount base-denomination placeholder event. -/
theorem C9_witness :
    (withdrawDelegationRewards exLedgerTiny (fun _ => 0)).1.events =
      exLedgerTiny.events ++ [[(exLedgerTiny.baseDenom, (0 : ℤ))]] :=
  C9_zero_payout_placeholder exLedgerTiny (fun _ => 0)
    (withdrawDelegationRewards exLedgerTiny (fun _ => 0)).1 (fun _ => 0)
    (Prod.ext rfl (by decide)) (fun _ => rfl)

/-- C10 (confirmed).  With the per-delegator outstanding store empty (it is
never written in this repository) and a well-formed nonnegative validator
outstanding pool, every denomination whose cap entry is absent (amount zero
— including the entirely empty cap) is claimed at its full owed clipped
reward: an absent cap entry never reduces the claim to zero. -/
theorem C10_absent_cap_full_claim {nd : ℕ} (s : State nd) (caps : DecCoins nd)
    (p : Plan nd) (hdel : s.delOutstanding = DecCoins.zero nd)
    (hval : ∀ d, 0 ≤ s.valOutstanding d) (hp : settlePlan s caps = .ok p) :
    ∀ d, caps d = 0 → p.claimed d = p.rewards d := by
  obtain ⟨_, hs1, _, hcalc, hrew, hout, hclaim, _, _⟩ := settlePlan_ok_inv hp
  intro d hc
  have hraw := calc_ok_nonneg hcalc
  have hrnn : 0 ≤ p.rewards d := by
    rw [hrew]
    show 0 ≤ min (p.rewardsRaw d) ((IncrementValidatorPeriod s).2.valOutstanding d)
    exact le_min (hraw d) (hval d)
  have hdel2 : (IncrementValidatorPeriod s).2.delOutstanding = DecCoins.zero nd := hdel
  rw [hclaim, hout, hdel2, DecCoins.zero_add_left]
  show (if p.rewards d = 0 then 0 else max (p.rewards d) (DecCoins.ofCoins caps d)) =
    p.rewards d
  have hcap : DecCoins.ofCoins caps d = 0 := by simp [DecCoins.ofCoins, hc]
  rw [hcap]
  split_ifs with h0
  · exact h0.symm
  · exact max_eq_left hrnn

/-- C10 witness: on `exLedger` with an entirely empty cap, the claimed
amount equals the full owed clipped reward. -/
theorem C10_witness : exPlanFree.claimed 0 = exPlanFree.rewards 0 :=
  C10_absent_cap_full_claim exLedger (fun _ => 0) exPlanFree rfl (by decide) rfl 0 rfl

/-- C4 (confirmed, with the keeper-level wrapper and period ledger modelled
from the spec).  After a successful withdrawal with an empty per-delegator
outstanding store, the re-anchored starting info records a `previousPeriod`
equal to the just-ended period returned by the period increment, and an
immediate second withdrawal in the same block pays exactly zero. -/
theorem C4_exactly_once {nd : ℕ} (s : State nd) (caps caps2 : DecCoins nd)
    (s1 : State nd) (f : DecCoins nd)
    (hdel : s.delOutstanding = DecCoins.zero nd)
    (hw : WithdrawDelegationRewards s caps = (s1, .ok f)) :
    Option.map StartingInfo.previousPeriod s1.startingInfo =
      some (IncrementValidatorPeriod s).1 ∧
    (WithdrawDelegationRewards s1 caps2).2 = .ok (DecCoins.zero nd) := by
  cases hww : withdrawDelegationRewards s caps with
  | mk s0 o =>
    simp only [WithdrawDelegationRewards, hww] at hw
    cases o with
    | err m => exact absurd (congrArg Prod.snd hw) (by simp)
    | fatal m => exact absurd (congrArg Prod.snd hw) (by simp)
    | ok f0 =>
      have hs1 : s1 = initializeDelegation s0 := (congrArg Prod.fst hw).symm
      obtain ⟨p, hp, hc⟩ := withdraw_ok_inv hww
      obtain ⟨hf, hneg, hs0⟩ := commit_ok_inv hc
      obtain ⟨_, hps1, _, hcalc, hrew, hout, _⟩ := settlePlan_ok_inv hp
      have hcp : s0.currentPeriod = s.currentPeriod + 1 := by
        rw [hs0, hps1]
        rfl
      have hsi1 : s1.startingInfo =
          some ⟨s0.currentPeriod - 1, s0.currentStakeTruncated, s0.blockHeight⟩ := by
        rw [hs1]
        rfl
      have hdelInc : (IncrementValidatorPeriod s).2.delOutstanding = DecCoins.zero nd := hdel
      have hdel1 : ∀ d, s1.delOutstanding d = 0 := by
        intro d
        rw [hs1]
        show s0.delOutstanding d = 0
        rw [hs0]
        show p.s1.delOutstanding d = 0
        rw [hps1, hdelInc]
        rfl
      have hval1 : ∀ d, 0 ≤ s1.valOutstanding d := by
        intro d
        rw [hs1]
        show 0 ≤ s0.valOutstanding d
        rw [hs0]
        show 0 ≤ p.outstanding d - p.rewards d
        have houtd : p.outstanding d = 0 + p.rewards d := by
          rw [hout]
          show (IncrementValidatorPeriod s).2.delOutstanding d + p.rewards d = 0 + p.rewards d
          rw [hdelInc]
          rfl
        omega
      constructor
      · rw [hsi1]
        show some (s0.currentPeriod - 1) = some s.currentPeriod
        rw [hcp, Nat.add_sub_cancel]
      · obtain ⟨s2, hw2⟩ := withdraw_anchored_now_zero s1 caps2
          ⟨s0.currentPeriod - 1, s0.currentStakeTruncated, s0.blockHeight⟩ hsi1
          (by rw [hs1]; rfl) hdel1 hval1
        simp only [WithdrawDelegationRewards, hw2]

/-- C4 witness: withdrawing from `exLedger` re-anchors the starting info at
the just-ended period 1, and an immediate second withdrawal pays zero. -/
theorem C4_witness :
    Option.map StartingInfo.previousPeriod
      (WithdrawDelegationRewards exLedger exCap).1.startingInfo =
      some (IncrementValidatorPeriod exLedger).1 ∧
    (WithdrawDelegationRewards (WithdrawDelegationRewards exLedger exCap).1 exCap).2 =
      .ok (DecCoins.zero 1) :=
  C4_exactly_once exLedger exCap exCap (WithdrawDelegationRewards exLedger exCap).1
    (fun _ => 2) rfl (Prod.ext rfl (by decide))
